import Mathlib

/-!
Verification of the gradient-bound estimator in `privacy.py` of the
csc2412_project repository.  The two routines `compute_ReLU_bounds` and
`compute_Tanh_bounds` are embedded shallowly: real arithmetic is modelled
by `ℚ`, a `nn.Linear` module by its weight-matrix shape together with its
stored entries, and torch runtime failures (shape-mismatched `@`, `max()`
of an empty tensor) by `Option`.
-/

namespace Privacy

/-- An `nn.Linear` layer: weight matrix of shape
`(outFeatures, inFeatures)`; `weight i j` is the stored entry at row `i`,
column `j`.  The bound routines read only the shape. -/
structure Linear where
  outFeatures : ℕ
  inFeatures : ℕ
  weight : ℕ → ℕ → ℚ

/-- The ordered sequence of `nn.Linear` layers that iterating
`model.modules()` and filtering on `isinstance(layer, nn.Linear)` yields. -/
abbrev Model := List Linear

/-- The shape sequence of a network's linear layers, each as
`(output dimension, input dimension)`. -/
def layerShapes (model : Model) : List (ℕ × ℕ) :=
  model.map (fun l => (l.outFeatures, l.inFeatures))

/-- `torch.ones_like(layer.weight) * c_p`: the `rows × cols` matrix with
every entry equal to `c`, as a list of rows. -/
def uniformMat (rows cols : ℕ) (c : ℚ) : List (List ℚ) :=
  List.replicate rows (List.replicate cols c)

/-- Dot product of a matrix row with the propagated vector. -/
def dot (r v : List ℚ) : ℚ :=
  (List.zipWith (fun a b => a * b) r v).sum

/-- `W @ sample` for the uniform `rows × cols` matrix `W`; `none` models
the torch `RuntimeError` raised when the vector length differs from
`cols`. -/
def matvec (rows cols : ℕ) (c : ℚ) (v : List ℚ) : Option (List ℚ) :=
  if cols = v.length then
    some ((uniformMat rows cols c).map (fun r => dot r v))
  else
    none

/-- `t.max().item()` of a 1-d tensor; `none` models the torch error on an
empty tensor. -/
def vecMax : List ℚ → Option ℚ
  | [] => none
  | x :: xs => some (xs.foldl max x)

/-- The layer loop of `compute_ReLU_bounds`: propagate `sample` through
each linear layer with every weight replaced by `c_p`, tracking the
running maximum `B_sigma` and the accumulator `sum_mk_mkp1` (the first
linear layer is skipped for the accumulator only). -/
def reluLoop (c_p : ℚ) : Model → List ℚ → ℚ → ℕ → Bool → Option (ℚ × ℕ)
  | [], _, B_sigma, sum_mk_mkp1, _ => some (B_sigma, sum_mk_mkp1)
  | layer :: rest, sample, B_sigma, sum_mk_mkp1, skip_first =>
    match matvec layer.outFeatures layer.inFeatures c_p sample with
    | none => none
    | some sample2 =>
      match vecMax sample2 with
      | none => none
      | some m =>
        if skip_first then
          reluLoop c_p rest sample2 (max B_sigma m) sum_mk_mkp1 false
        else
          reluLoop c_p rest sample2 (max B_sigma m)
            (sum_mk_mkp1 + layer.outFeatures * layer.inFeatures) false

/-- The pair `(B_sigma, sum_mk_mkp1)` computed inside
`compute_ReLU_bounds` just before the final formula: the loop started on
`torch.ones(input_size) * input_bounds` with `B_sigma = 0.0`,
`sum_mk_mkp1 = 0` and `skip_first = True`. -/
def reluInternal (model : Model) (c_p : ℚ) (input_size : ℕ)
    (input_bounds : ℚ) : Option (ℚ × ℕ) :=
  reluLoop c_p model (List.replicate input_size input_bounds) 0 0 true

/-- `compute_ReLU_bounds(model, c_p, input_size, input_bounds, B_sigma_p)`
from `privacy.py`; `none` models a torch runtime failure during the
forward propagation. -/
def compute_ReLU_bounds (model : Model) (c_p : ℚ) (input_size : ℕ)
    (input_bounds B_sigma_p : ℚ) : Option ℚ :=
  match reluInternal model c_p input_size input_bounds with
  | none => none
  | some (B_sigma, sum_mk_mkp1) =>
      some (2 * c_p * B_sigma * B_sigma_p ^ 2 * (sum_mk_mkp1 : ℚ))

/-- The layer loop of `compute_Tanh_bounds`: accumulate
`layer.weight.shape[0] * layer.weight.shape[1]` over every linear layer
except the first. -/
def tanhLoop : Model → ℕ → Bool → ℕ
  | [], sum_mk_mkp1, _ => sum_mk_mkp1
  | layer :: rest, sum_mk_mkp1, skip_first =>
    if skip_first then
      tanhLoop rest sum_mk_mkp1 false
    else
      tanhLoop rest (sum_mk_mkp1 + layer.outFeatures * layer.inFeatures) false

/-- `compute_Tanh_bounds(model, c_p, input_size, input_bounds, B_sigma_p)`
from `privacy.py`.  `input_size` and `input_bounds` are accepted (the
Python signature has them) but never read; `B_sigma` is the constant
`1.0`. -/
def compute_Tanh_bounds (model : Model) (c_p : ℚ) (_input_size : ℕ)
    (_input_bounds B_sigma_p : ℚ) : ℚ :=
  let B_sigma : ℚ := 1
  2 * c_p * B_sigma * B_sigma_p ^ 2 * ((tanhLoop model 0 true : ℕ) : ℚ)

/-! Spec-side definitions, written from the specification's words, to be
compared with the code-derived definitions above. -/

/-- Spec: `sum_mk_mkp1` is the sum of (output dimension × input
dimension) over every linear layer except the first. -/
def specSum : List (ℕ × ℕ) → ℕ
  | [] => 0
  | _ :: rest => (rest.map (fun sh => sh.1 * sh.2)).sum

/-- Spec: propagate the common entry `x` of the (all-entries-equal)
vector through the shape list, multiplying at each layer by the matrix of
that shape with every entry `c`, and return the running maximum
(seeded with the accumulator `B`) of the maximum entry after each
multiplication.  Multiplying the all-`c` `(m, k)` matrix by the
all-`x` vector of length `k` gives the all-`c * (k * x)` vector of
length `m`. -/
def specBsigmaAux (c : ℚ) : List (ℕ × ℕ) → ℚ → ℚ → ℚ
  | [], _, B => B
  | sh :: rest, x, B =>
      specBsigmaAux c rest (c * (sh.2 * x)) (max B (c * (sh.2 * x)))

/-- Spec: `B_sigma` — start from the all-`input_bounds` vector, multiply
through the shape list by all-`c` matrices, and take the running maximum
(starting from `0.0`) of the maximum entry after each multiplication. -/
def specBsigma (c input_bounds : ℚ) (shapes : List (ℕ × ℕ)) : ℚ :=
  specBsigmaAux c shapes input_bounds 0

/-! Side conditions under which the torch forward propagation succeeds. -/

/-- The shape chain condition: the first layer's input dimension equals
`n` and each later layer's input dimension equals the previous layer's
output dimension. -/
def chainFrom (n : ℕ) : Model → Bool
  | [] => true
  | l :: ls => (l.inFeatures == n) && chainFrom l.outFeatures ls

/-- Every linear layer has a positive output dimension (so `max()` of the
propagated tensor is defined). -/
def allPos (model : Model) : Bool :=
  model.all (fun l => decide (0 < l.outFeatures))

/-- `sum_mk_mkp1` as the loop accumulates it from a given `skip_first`
flag. -/
def sumFrom : Bool → List (ℕ × ℕ) → ℕ
  | _, [] => 0
  | true, _ :: rest => sumFrom false rest
  | false, sh :: rest => sh.1 * sh.2 + sumFrom false rest

/-- The two-layer example network of the spec: linear layers of shapes
3×4 then 2×3 (input dim 4, hidden dim 3, output dim 2), with arbitrary
nonzero stored weights that the bound routines never read. -/
def exampleNet : Model :=
  [⟨3, 4, fun i j => (i : ℚ) + j⟩, ⟨2, 3, fun i j => (i : ℚ) - j⟩]

/-- A network with the same layer shapes as `exampleNet` but different
stored weights. -/
def exampleNet2 : Model :=
  [⟨3, 4, fun _ _ => 7⟩, ⟨2, 3, fun _ _ => -5⟩]

/-! ### Helper lemmas -/

lemma dot_replicate (k : ℕ) (c x : ℚ) :
    dot (List.replicate k c) (List.replicate k x) = (k : ℚ) * (c * x) := by
  induction k with
  | zero => simp [dot]
  | succ n ih =>
    simp only [List.replicate_succ, dot, List.zipWith_cons_cons,
      List.sum_cons] at ih ⊢
    rw [ih]
    push_cast
    ring

lemma matvec_replicate (m k : ℕ) (c x : ℚ) :
    matvec m k c (List.replicate k x) =
      some (List.replicate m ((k : ℚ) * (c * x))) := by
  simp [matvec, uniformMat, dot_replicate]

lemma foldl_max_replicate (j : ℕ) (x : ℚ) :
    (List.replicate j x).foldl max x = x := by
  induction j with
  | zero => simp
  | succ n ih => simp [List.replicate_succ, ih]

lemma vecMax_replicate (m : ℕ) (hm : 0 < m) (x : ℚ) :
    vecMax (List.replicate m x) = some x := by
  obtain ⟨j, rfl⟩ : ∃ j, m = j + 1 :=
    ⟨m - 1, (Nat.succ_pred_eq_of_pos hm).symm⟩
  simp [List.replicate_succ, vecMax, foldl_max_replicate]

lemma sumFrom_false (shapes : List (ℕ × ℕ)) :
    sumFrom false shapes = (shapes.map (fun sh => sh.1 * sh.2)).sum := by
  induction shapes with
  | nil => simp [sumFrom]
  | cons sh rest ih => simp [sumFrom, ih]

lemma sumFrom_true (shapes : List (ℕ × ℕ)) :
    sumFrom true shapes = specSum shapes := by
  cases shapes with
  | nil => rfl
  | cons sh rest => simp [sumFrom, specSum, sumFrom_false]

lemma chainFrom_cons (n : ℕ) (l : Linear) (ls : Model)
    (h : chainFrom n (l :: ls) = true) :
    l.inFeatures = n ∧ chainFrom l.outFeatures ls = true := by
  simpa [chainFrom, Bool.and_eq_true] using h

lemma allPos_cons (l : Linear) (ls : Model)
    (h : allPos (l :: ls) = true) :
    0 < l.outFeatures ∧ allPos ls = true := by
  simpa [allPos, List.all_cons, Bool.and_eq_true] using h

/-- The ReLU-variant loop on an all-equal vector computes exactly the
spec-side running maximum and the `sumFrom` accumulation over the layer
shapes, provided the shapes chain from the vector length and every output
dimension is positive. -/
lemma reluLoop_eq (c : ℚ) (model : Model) : ∀ (n : ℕ) (x B : ℚ) (s : ℕ)
    (skip : Bool), chainFrom n model = true → allPos model = true →
    reluLoop c model (List.replicate n x) B s skip =
      some (specBsigmaAux c (layerShapes model) x B,
            s + sumFrom skip (layerShapes model)) := by
  induction model with
  | nil =>
    intro n x B s skip _ _
    cases skip <;> simp [reluLoop, specBsigmaAux, layerShapes, sumFrom]
  | cons l ls ih =>
    intro n x B s skip hchain hpos
    obtain ⟨hin, hch⟩ := chainFrom_cons n l ls hchain
    obtain ⟨hl, hrest⟩ := allPos_cons l ls hpos
    subst hin
    have hx : ((l.inFeatures : ℚ)) * (c * x) = c * ((l.inFeatures : ℚ) * x) := by
      ring
    rw [reluLoop, matvec_replicate, hx]
    simp only [vecMax_replicate _ hl]
    cases skip with
    | true =>
      simp only [if_pos]
      rw [ih l.outFeatures _ _ _ false hch hrest]
      simp [layerShapes, specBsigmaAux, sumFrom]
    | false =>
      simp only [if_neg Bool.false_ne_true]
      rw [ih l.outFeatures _ _ _ false hch hrest]
      simp only [layerShapes, List.map_cons, specBsigmaAux, sumFrom,
        Option.some.injEq, Prod.mk.injEq, true_and]
      omega

/-- The `(B_sigma, sum_mk_mkp1)` pair inside `compute_ReLU_bounds`, in
spec terms. -/
lemma reluInternal_eq (model : Model) (c : ℚ) (n : ℕ) (b : ℚ)
    (hchain : chainFrom n model = true) (hpos : allPos model = true) :
    reluInternal model c n b =
      some (specBsigma c b (layerShapes model), specSum (layerShapes model)) := by
  rw [reluInternal, reluLoop_eq c model n b 0 0 true hchain hpos,
    sumFrom_true]
  simp [specBsigma]

/-- The Tanh-variant loop computes `sumFrom`. -/
lemma tanhLoop_eq (model : Model) : ∀ (s : ℕ) (skip : Bool),
    tanhLoop model s skip = s + sumFrom skip (layerShapes model) := by
  induction model with
  | nil => intro s skip; cases skip <;> simp [tanhLoop, layerShapes, sumFrom]
  | cons l ls ih =>
    intro s skip
    cases skip with
    | true => simp [tanhLoop, ih, layerShapes, sumFrom]
    | false => simp [tanhLoop, ih, layerShapes, sumFrom]; omega

/-- The spec-side running maximum is monotone in the propagated entry and
in the seed, for a nonnegative multiplier. -/
lemma specBsigmaAux_mono_x (c : ℚ) (hc : 0 ≤ c) (shapes : List (ℕ × ℕ)) :
    ∀ x1 x2 B1 B2 : ℚ, x1 ≤ x2 → B1 ≤ B2 →
      specBsigmaAux c shapes x1 B1 ≤ specBsigmaAux c shapes x2 B2 := by
  induction shapes with
  | nil => intro x1 x2 B1 B2 _ hB; simpa [specBsigmaAux]
  | cons sh rest ih =>
    intro x1 x2 B1 B2 hx hB
    simp only [specBsigmaAux]
    have hstep : c * ((sh.2 : ℚ) * x1) ≤ c * ((sh.2 : ℚ) * x2) :=
      mul_le_mul_of_nonneg_left
        (mul_le_mul_of_nonneg_left hx (Nat.cast_nonneg sh.2)) hc
    exact ih _ _ _ _ hstep (max_le_max hB hstep)

/-- The spec-side running maximum is monotone in the multiplier on a
nonnegative propagated entry. -/
lemma specBsigmaAux_mono_c (shapes : List (ℕ × ℕ)) :
    ∀ c1 c2 x1 x2 B1 B2 : ℚ, 0 ≤ c1 → c1 ≤ c2 → 0 ≤ x1 → x1 ≤ x2 →
      B1 ≤ B2 →
      specBsigmaAux c1 shapes x1 B1 ≤ specBsigmaAux c2 shapes x2 B2 := by
  induction shapes with
  | nil => intro c1 c2 x1 x2 B1 B2 _ _ _ _ hB; simpa [specBsigmaAux]
  | cons sh rest ih =>
    intro c1 c2 x1 x2 B1 B2 hc1 hc hx1 hx hB
    simp only [specBsigmaAux]
    have hk : (0 : ℚ) ≤ (sh.2 : ℚ) := Nat.cast_nonneg sh.2
    have hke : (sh.2 : ℚ) * x1 ≤ (sh.2 : ℚ) * x2 :=
      mul_le_mul_of_nonneg_left hx hk
    have hke0 : (0 : ℚ) ≤ (sh.2 : ℚ) * x1 := mul_nonneg hk hx1
    have hstep : c1 * ((sh.2 : ℚ) * x1) ≤ c2 * ((sh.2 : ℚ) * x2) :=
      mul_le_mul hc hke hke0 (hc1.trans hc)
    exact ih _ _ _ _ _ _ hc1 hc (mul_nonneg hc1 hke0) hstep
      (max_le_max hB hstep)

/-- With a nonnegative multiplier and a nonpositive starting entry, every
propagated entry stays nonpositive, so the running maximum seeded with `0`
stays `0`. -/
lemma specBsigmaAux_nonpos (c : ℚ) (hc : 0 ≤ c) (shapes : List (ℕ × ℕ)) :
    ∀ x : ℚ, x ≤ 0 → specBsigmaAux c shapes x 0 = 0 := by
  induction shapes with
  | nil => intro x _; rfl
  | cons sh rest ih =>
    intro x hx
    simp only [specBsigmaAux]
    have hstep : c * ((sh.2 : ℚ) * x) ≤ 0 :=
      mul_nonpos_of_nonneg_of_nonpos hc
        (mul_nonpos_of_nonneg_of_nonpos (Nat.cast_nonneg sh.2) hx)
    rw [max_eq_left hstep]
    exact ih _ hstep

/-- The loop's `B_sigma` never drops below its starting value. -/
lemma reluLoop_B_le (c : ℚ) (model : Model) : ∀ (v : List ℚ) (B : ℚ)
    (s : ℕ) (skip : Bool) (B2 : ℚ) (s2 : ℕ),
    reluLoop c model v B s skip = some (B2, s2) → B ≤ B2 := by
  induction model with
  | nil =>
    intro v B s skip B2 s2 h
    simp only [reluLoop, Option.some.injEq, Prod.mk.injEq] at h
    exact le_of_eq h.1
  | cons l ls ih =>
    intro v B s skip B2 s2 h
    rw [reluLoop] at h
    cases hmv : matvec l.outFeatures l.inFeatures c v with
    | none => simp only [hmv] at h; cases h
    | some v2 =>
      simp only [hmv] at h
      cases hM : vecMax v2 with
      | none => simp only [hM] at h; cases h
      | some m =>
        simp only [hM] at h
        cases skip with
        | true =>
          simp only [if_pos] at h
          exact (le_max_left B m).trans (ih _ _ _ _ _ _ h)
        | false =>
          simp only [if_neg Bool.false_ne_true] at h
          exact (le_max_left B m).trans (ih _ _ _ _ _ _ h)

/-- When the shape chain is broken at any layer, or some layer has a zero
output dimension, the ReLU loop fails: the first offending layer raises
either from the shape-mismatched matrix multiplication or from `max()` of
an empty tensor. -/
lemma reluLoop_none (c : ℚ) : ∀ (model : Model) (n : ℕ) (x B : ℚ) (s : ℕ)
    (skip : Bool),
    ¬(chainFrom n model = true ∧ allPos model = true) →
    reluLoop c model (List.replicate n x) B s skip = none := by
  intro model
  induction model with
  | nil => intro n x B s skip h; exact absurd ⟨rfl, rfl⟩ h
  | cons l ls ih =>
    intro n x B s skip h
    by_cases hin : l.inFeatures = n
    · subst hin
      by_cases hl : 0 < l.outFeatures
      · rw [reluLoop, matvec_replicate]
        simp only [vecMax_replicate _ hl]
        have h2 : ¬(chainFrom l.outFeatures ls = true ∧ allPos ls = true) := by
          intro hc
          apply h
          refine ⟨by simp [chainFrom, hc.1], ?_⟩
          have h3 := hc.2
          simp only [allPos, List.all_cons, Bool.and_eq_true,
            decide_eq_true_eq] at h3 ⊢
          exact ⟨hl, h3⟩
        cases skip with
        | true => simp only [if_pos]; exact ih _ _ _ _ _ h2
        | false =>
          simp only [if_neg Bool.false_ne_true]
          exact ih _ _ _ _ _ h2
      · have h0 : l.outFeatures = 0 := Nat.eq_zero_of_not_pos hl
        rw [reluLoop, matvec_replicate, h0]
        simp [vecMax]
    · have hmv : matvec l.outFeatures l.inFeatures c (List.replicate n x) =
          none := by
        simp [matvec, hin]
      rw [reluLoop]
      simp only [hmv]

/-- The ReLU loop reads a layer only through its shape. -/
lemma reluLoop_shapes (c : ℚ) : ∀ (m1 m2 : Model),
    layerShapes m1 = layerShapes m2 → ∀ (v : List ℚ) (B : ℚ) (s : ℕ)
    (skip : Bool), reluLoop c m1 v B s skip = reluLoop c m2 v B s skip := by
  intro m1
  induction m1 with
  | nil =>
    intro m2 h v B s skip
    cases m2 with
    | nil => rfl
    | cons l2 ls2 => simp [layerShapes] at h
  | cons l ls ih =>
    intro m2 h v B s skip
    cases m2 with
    | nil => simp [layerShapes] at h
    | cons l2 ls2 =>
      simp only [layerShapes, List.map_cons, List.cons.injEq,
        Prod.mk.injEq] at h
      obtain ⟨⟨hout, hin⟩, htail⟩ := h
      have htail2 : layerShapes ls = layerShapes ls2 := htail
      rw [reluLoop, reluLoop, hout, hin]
      cases hmv : matvec l2.outFeatures l2.inFeatures c v with
      | none => simp only [hmv]
      | some v2 =>
        simp only [hmv]
        cases hM : vecMax v2 with
        | none => simp only [hM]
        | some m =>
          simp only [hM]
          cases skip with
          | true => simp only [if_pos]; exact ih ls2 htail2 _ _ _ _
          | false =>
            simp only [if_neg Bool.false_ne_true]
            exact ih ls2 htail2 _ _ _ _

/-- The Tanh loop reads a layer only through its shape. -/
lemma tanhLoop_shapes : ∀ (m1 m2 : Model),
    layerShapes m1 = layerShapes m2 →
    ∀ (s : ℕ) (skip : Bool), tanhLoop m1 s skip = tanhLoop m2 s skip := by
  intro m1 m2 h s skip
  rw [tanhLoop_eq, tanhLoop_eq, h]

/-! ### Claim theorems -/

/-- C1: for every network whose linear layers chain from `input_size`
(shapes `(m1 × d), (m2 × m1), …` with `d = input_size` and positive
output dimensions, so the torch propagation is defined) and all scalar
arguments, `compute_ReLU_bounds` returns exactly
`2 * c_p * B_sigma * B_sigma_p² * sum_mk_mkp1`, where `B_sigma` is the
spec-side running maximum over the propagated all-`input_bounds` vector
and `sum_mk_mkp1` the spec-side sum of `output_dim × input_dim` over
every linear layer except the first. -/
theorem relu_bound_formula (model : Model) (n : ℕ) (c b p : ℚ)
    (hchain : chainFrom n model = true) (hpos : allPos model = true) :
    compute_ReLU_bounds model c n b p =
      some (2 * c * specBsigma c b (layerShapes model) * p ^ 2 *
        (specSum (layerShapes model) : ℚ)) := by
  rw [compute_ReLU_bounds, reluInternal_eq model c n b hchain hpos]

/-- Witness for C1 at the concrete two-layer 3×4 / 2×3 network. -/
theorem relu_bound_formula_witness :
    compute_ReLU_bounds exampleNet (1/100) 4 1 1 =
      some (2 * (1/100) * specBsigma (1/100) 1 (layerShapes exampleNet) *
        1 ^ 2 * (specSum (layerShapes exampleNet) : ℚ)) :=
  relu_bound_formula exampleNet 4 (1/100) 1 1 (by decide) (by decide)

/-- C2: for every network and all scalar arguments,
`compute_Tanh_bounds` does no forward propagation and uses `B_sigma = 1`:
it returns exactly `2 * c_p * B_sigma_p² * sum_mk_mkp1`, independent of
`input_size` and `input_bounds`. -/
theorem tanh_bound_formula (model : Model) (c : ℚ) (n : ℕ) (b p : ℚ) :
    compute_Tanh_bounds model c n b p =
      2 * c * p ^ 2 * (specSum (layerShapes model) : ℚ) := by
  simp only [compute_Tanh_bounds, tanhLoop_eq, sumFrom_true, Nat.zero_add]
  ring

/-- C4: for a network with exactly one linear layer, `sum_mk_mkp1 = 0`
and hence both variants return `c_g = 0` (the ReLU variant under the side
condition that its forward propagation is defined). -/
theorem single_layer_zero_bound (l : Linear) (c : ℚ) (n : ℕ) (b p : ℚ) :
    (l.inFeatures = n → 0 < l.outFeatures →
      compute_ReLU_bounds [l] c n b p = some 0) ∧
    compute_Tanh_bounds [l] c n b p = 0 := by
  constructor
  · intro hin hl
    have hch : chainFrom n [l] = true := by simp [chainFrom, hin]
    have hp : allPos [l] = true := by simp [allPos, hl]
    rw [compute_ReLU_bounds, reluInternal_eq [l] c n b hch hp]
    simp [layerShapes, specSum]
  · simp [compute_Tanh_bounds, tanhLoop]

/-- Witness for C4 at a single 3×4 linear layer. -/
theorem single_layer_zero_bound_witness :
    compute_ReLU_bounds [⟨3, 4, fun _ _ => 0⟩] (1/100) 4 1 1 = some 0 ∧
    compute_Tanh_bounds [⟨3, 4, fun _ _ => 0⟩] (1/100) 4 1 1 = 0 := by
  have h := single_layer_zero_bound ⟨3, 4, fun _ _ => 0⟩ (1/100) 4 1 1
  exact ⟨h.1 rfl (by norm_num), h.2⟩

/-- C9: doubling `c_p` scales the Tanh-variant bound by exactly 2. -/
theorem tanh_doubling (model : Model) (c : ℚ) (n : ℕ) (b p : ℚ) :
    compute_Tanh_bounds model (2 * c) n b p =
      2 * compute_Tanh_bounds model c n b p := by
  simp only [compute_Tanh_bounds]
  ring

/-- C3 counterexample: invoked with the non-positive `c_p = -1` and an
empty linear-layer sequence, both routines return the numeric bound `0`
instead of failing with an `InvalidArgument` error. -/
theorem no_validation_counterexample :
    compute_ReLU_bounds [] (-1) 4 1 1 = some 0 ∧
    compute_Tanh_bounds [] (-1) 4 1 1 = 0 := by
  constructor
  · norm_num [compute_ReLU_bounds, reluInternal, reluLoop]
  · norm_num [compute_Tanh_bounds, tanhLoop]

/-- C3 amended: the routines perform no argument validation.  An empty
layer sequence yields the numeric bound `0` from both variants, and a
non-positive `c_p` yields a numeric (non-positive) bound from the Tanh
variant, which never fails.  The ReLU variant fails exactly when its
forward propagation does — when some layer's input dimension does not
match the prior vector's length (a chaining mismatch at any layer,
including the first against `input_size`) or some layer's output
dimension is zero — and then with the raw torch runtime error, not a
descriptive `InvalidArgument`. -/
theorem no_validation_behavior :
    (∀ (c : ℚ) (n : ℕ) (b p : ℚ),
        compute_ReLU_bounds ([] : Model) c n b p = some 0 ∧
        compute_Tanh_bounds ([] : Model) c n b p = 0) ∧
    (∀ (model : Model) (c : ℚ) (n : ℕ) (b p : ℚ),
        c ≤ 0 → compute_Tanh_bounds model c n b p ≤ 0) ∧
    (∀ (model : Model) (c : ℚ) (n : ℕ) (b p : ℚ),
        compute_ReLU_bounds model c n b p = none ↔
          ¬(chainFrom n model = true ∧ allPos model = true)) := by
  refine ⟨?_, ?_, ?_⟩
  · intro c n b p
    constructor
    · simp [compute_ReLU_bounds, reluInternal, reluLoop]
    · simp [compute_Tanh_bounds, tanhLoop]
  · intro model c n b p hc
    simp only [compute_Tanh_bounds]
    have hp : (0 : ℚ) ≤ p ^ 2 := sq_nonneg p
    have hs : (0 : ℚ) ≤ ((tanhLoop model 0 true : ℕ) : ℚ) :=
      Nat.cast_nonneg _
    nlinarith [mul_nonpos_of_nonpos_of_nonneg hc (mul_nonneg hp hs)]
  · intro model c n b p
    constructor
    · intro hnone hside
      rw [compute_ReLU_bounds,
        reluInternal_eq model c n b hside.1 hside.2] at hnone
      simp at hnone
    · intro hside
      have hI : reluInternal model c n b = none :=
        reluLoop_none c model n b 0 0 true hside
      rw [compute_ReLU_bounds, hI]

/-- Witness for the amended C3: a concrete no-layer call, a concrete
negative `c_p`, a chaining mismatch at the second layer, and a zero
output dimension, the latter two both failing. -/
theorem no_validation_behavior_witness :
    compute_ReLU_bounds ([] : Model) 1 4 1 1 = some 0 ∧
    compute_Tanh_bounds exampleNet (-1) 4 1 1 ≤ 0 ∧
    compute_ReLU_bounds [⟨3, 4, fun _ _ => 0⟩, ⟨5, 7, fun _ _ => 0⟩]
      1 4 1 1 = none ∧
    compute_ReLU_bounds [⟨0, 4, fun _ _ => 0⟩] 1 4 1 1 = none := by
  refine ⟨(no_validation_behavior.1 1 4 1 1).1,
    no_validation_behavior.2.1 exampleNet (-1) 4 1 1 (by norm_num),
    (no_validation_behavior.2.2 _ 1 4 1 1).mpr (by decide),
    (no_validation_behavior.2.2 _ 1 4 1 1).mpr (by decide)⟩

/-- C5: with a chained shape sequence and the clip bound nonnegative (as
the spec's data model requires), the `B_sigma` computed inside
`compute_ReLU_bounds` is monotonically non-decreasing in `input_bounds`
with `c_p` fixed, and in `c_p` with `input_bounds` fixed. -/
theorem relu_Bsigma_monotone (model : Model) (n : ℕ)
    (hchain : chainFrom n model = true) (hpos : allPos model = true) :
    (∀ (c b1 b2 B1 B2 : ℚ) (s1 s2 : ℕ), 0 ≤ c → b1 ≤ b2 →
        reluInternal model c n b1 = some (B1, s1) →
        reluInternal model c n b2 = some (B2, s2) → B1 ≤ B2) ∧
    (∀ (c1 c2 b B1 B2 : ℚ) (s1 s2 : ℕ), 0 ≤ c1 → c1 ≤ c2 →
        reluInternal model c1 n b = some (B1, s1) →
        reluInternal model c2 n b = some (B2, s2) → B1 ≤ B2) := by
  constructor
  · intro c b1 b2 B1 B2 s1 s2 hc hb h1 h2
    rw [reluInternal_eq model c n b1 hchain hpos] at h1
    rw [reluInternal_eq model c n b2 hchain hpos] at h2
    simp only [Option.some.injEq, Prod.mk.injEq] at h1 h2
    rw [← h1.1, ← h2.1, specBsigma, specBsigma]
    exact specBsigmaAux_mono_x c hc _ b1 b2 0 0 hb le_rfl
  · intro c1 c2 b B1 B2 s1 s2 hc1 hc h1 h2
    rw [reluInternal_eq model c1 n b hchain hpos] at h1
    rw [reluInternal_eq model c2 n b hchain hpos] at h2
    simp only [Option.some.injEq, Prod.mk.injEq] at h1 h2
    rw [← h1.1, ← h2.1, specBsigma, specBsigma]
    rcases le_total b 0 with hb | hb
    · rw [specBsigmaAux_nonpos c1 hc1 _ b hb,
        specBsigmaAux_nonpos c2 (hc1.trans hc) _ b hb]
    · exact specBsigmaAux_mono_c _ c1 c2 b b 0 0 hc1 hc hb le_rfl le_rfl

/-- Witness for C5: on the concrete network, raising `input_bounds` from
1 to 2 raises the internal `B_sigma` from 12 to 24. -/
theorem relu_Bsigma_monotone_witness :
    reluInternal exampleNet 1 4 1 = some (12, 6) ∧
    reluInternal exampleNet 1 4 2 = some (24, 6) ∧
    (12 : ℚ) ≤ 24 := by
  have h := relu_Bsigma_monotone exampleNet 4 (by decide) (by decide)
  have e1 : reluInternal exampleNet 1 4 1 = some (12, 6) := by
    norm_num [reluInternal, reluLoop, matvec, vecMax, uniformMat, dot,
      exampleNet, List.replicate]
  have e2 : reluInternal exampleNet 1 4 2 = some (24, 6) := by
    norm_num [reluInternal, reluLoop, matvec, vecMax, uniformMat, dot,
      exampleNet, List.replicate]
  exact ⟨e1, e2, h.1 1 1 2 12 24 6 6 (by norm_num) (by norm_num) e1 e2⟩

/-- C6: the two variants read a network only through its layer shapes:
two networks with identical shape sequences but arbitrary different
stored weights yield identical bounds for the same scalar arguments. -/
theorem bounds_ignore_weights (m1 m2 : Model)
    (h : layerShapes m1 = layerShapes m2) (c : ℚ) (n : ℕ) (b p : ℚ) :
    compute_ReLU_bounds m1 c n b p = compute_ReLU_bounds m2 c n b p ∧
    compute_Tanh_bounds m1 c n b p = compute_Tanh_bounds m2 c n b p := by
  constructor
  · rw [compute_ReLU_bounds, compute_ReLU_bounds, reluInternal,
      reluInternal, reluLoop_shapes c m1 m2 h]
  · simp only [compute_Tanh_bounds]
    rw [tanhLoop_shapes m1 m2 h]

/-- Witness for C6: the two concrete networks with equal shapes and
different weights. -/
theorem bounds_ignore_weights_witness :
    compute_ReLU_bounds exampleNet (1/100) 4 1 1 =
      compute_ReLU_bounds exampleNet2 (1/100) 4 1 1 ∧
    compute_Tanh_bounds exampleNet (1/100) 4 1 1 =
      compute_Tanh_bounds exampleNet2 (1/100) 4 1 1 :=
  bounds_ignore_weights exampleNet exampleNet2 rfl (1/100) 4 1 1

/-- C7: for a two-layer network with shapes `h×d` then `o×h`,
`sum_mk_mkp1 = o*h` under both variants, the Tanh variant returns
`2 * c_p * B_sigma_p² * o * h`, and in particular the 3×4 / 2×3 network
with `c_p = 0.01`, `input_bounds = 1`, `B_sigma_p = 1` gives
`c_g = 0.12`. -/
theorem two_layer_bounds (d h o : ℕ) (w1 w2 : ℕ → ℕ → ℚ) (c : ℚ) (n : ℕ)
    (b p : ℚ) :
    compute_Tanh_bounds [⟨h, d, w1⟩, ⟨o, h, w2⟩] c n b p =
      2 * c * p ^ 2 * ((o * h : ℕ) : ℚ) ∧
    (d = n → 0 < h → 0 < o →
      (reluInternal [⟨h, d, w1⟩, ⟨o, h, w2⟩] c n b).map Prod.snd =
        some (o * h)) ∧
    compute_Tanh_bounds exampleNet (1/100) 4 1 1 = 3/25 := by
  refine ⟨?_, ?_, ?_⟩
  · simp [compute_Tanh_bounds, tanhLoop]
  · intro hdn hh ho
    have hch : chainFrom n [⟨h, d, w1⟩, ⟨o, h, w2⟩] = true := by
      simp [chainFrom, hdn]
    have hp : allPos [⟨h, d, w1⟩, ⟨o, h, w2⟩] = true := by
      simp [allPos, hh, ho]
    rw [reluInternal_eq _ c n b hch hp]
    simp [layerShapes, specSum]
  · norm_num [compute_Tanh_bounds, tanhLoop, exampleNet]

/-- Witness for C7 at the concrete 3×4 / 2×3 network. -/
theorem two_layer_bounds_witness :
    compute_Tanh_bounds exampleNet (1/100) 4 1 1 =
      2 * (1/100) * 1 ^ 2 * ((2 * 3 : ℕ) : ℚ) ∧
    (reluInternal exampleNet (1/100) 4 1).map Prod.snd = some (2 * 3) := by
  have h := two_layer_bounds 4 3 2 (fun i j => (i : ℚ) + j)
    (fun i j => (i : ℚ) - j) (1/100) 4 1 1
  exact ⟨h.1, h.2.1 rfl (by norm_num) (by norm_num)⟩

/-- C8: on the 3×4 / 2×3 network with `c_p = 0.01`, `input_size = 4`,
`input_bounds = 1`, `B_sigma_p = 1`, the ReLU variant computes
`B_sigma = 0.04`, `sum_mk_mkp1 = 6` and returns `c_g = 0.0048`. -/
theorem relu_concrete_example :
    compute_ReLU_bounds exampleNet (1/100) 4 1 1 = some (3/625) ∧
    reluInternal exampleNet (1/100) 4 1 = some (1/25, 6) := by
  constructor <;>
    norm_num [compute_ReLU_bounds, reluInternal, reluLoop, matvec, vecMax,
      uniformMat, dot, exampleNet, List.replicate]

/-- C10: for every network and nonnegative `c_p`, with arbitrary
`input_bounds` (including negative) and arbitrary `B_sigma_p`, whenever
the ReLU variant returns a value that value is nonnegative, and the Tanh
variant always returns a nonnegative value. -/
theorem bounds_nonneg (model : Model) (c : ℚ) (n : ℕ) (b p : ℚ)
    (hc : 0 ≤ c) :
    (∀ q : ℚ, compute_ReLU_bounds model c n b p = some q → 0 ≤ q) ∧
    0 ≤ compute_Tanh_bounds model c n b p := by
  constructor
  · intro q hq
    rw [compute_ReLU_bounds] at hq
    cases hI : reluInternal model c n b with
    | none => rw [hI] at hq; cases hq
    | some pair =>
      obtain ⟨B, s⟩ := pair
      rw [hI] at hq
      simp only [Option.some.injEq] at hq
      have hB : (0 : ℚ) ≤ B := by
        have hI' : reluLoop c model (List.replicate n b) 0 0 true =
            some (B, s) := hI
        exact reluLoop_B_le c model _ 0 0 true B s hI'
      rw [← hq]
      exact mul_nonneg
        (mul_nonneg
          (mul_nonneg (mul_nonneg (by norm_num) hc) hB) (sq_nonneg p))
        (Nat.cast_nonneg s)
  · simp only [compute_Tanh_bounds]
    exact mul_nonneg
      (mul_nonneg
        (mul_nonneg (mul_nonneg (by norm_num) hc) (by norm_num))
        (sq_nonneg p))
      (Nat.cast_nonneg _)

/-- Witness for C10 at the concrete network with `c_p = 1`. -/
theorem bounds_nonneg_witness :
    (0 : ℚ) ≤ 144 ∧ 0 ≤ compute_Tanh_bounds exampleNet 1 4 1 1 := by
  have h := bounds_nonneg exampleNet 1 4 1 1 (by norm_num)
  refine ⟨h.1 144 ?_, h.2⟩
  norm_num [compute_ReLU_bounds, reluInternal, reluLoop, matvec, vecMax,
    uniformMat, dot, exampleNet, List.replicate]

end Privacy
